import Mathlib

/-!
Verification of the client-side Result Processing & Presentation Engine
of the `autobi` repository: the filter/sort/paginate pipeline and value
formatting of the data table, the summary-statistics calculator, the
CSV/JSON export serializers, and the query-history ledger.

Rows are mappings from column names to scalar values of type
number | string | null.  JavaScript numbers are modelled as rationals;
`null` and `undefined` are collapsed into one constructor `vNull`, which
is sound for every operation verified here because each of them treats
the two identically (loose `!= null` checks, `=== null || === undefined`
checks, and the sort comparator's null guards).
-/

namespace AutoBI

/-- A scalar cell value: number, string, or null/undefined. -/
inductive Value
  | vNum (q : ℚ)
  | vStr (s : String)
  | vNull
deriving DecidableEq, Repr

/-- A row is an ordered association list from column names to values,
matching a JavaScript object literal with insertion-ordered keys. -/
abbrev Row := List (String × Value)

/-- Column metadata: a name and a semantic type string
(the table code only distinguishes the type string "measure"). -/
structure Column where
  name : String
  type : String
deriving DecidableEq, Repr

/-- Property access `row[name]`: the first binding wins; a missing key is
JavaScript `undefined`, collapsed into `vNull`. -/
def getV (r : Row) (k : String) : Value :=
  match r with
  | [] => Value.vNull
  | (k2, v) :: rest => if k2 = k then v else getV rest k

/-- String form of a JavaScript number.  Integers print as their decimal
digits (matching `String(n)` for integral values); non-integral rationals
print as a fraction, a deliberate simplification of float printing that no
verified property evaluates. -/
def digitChar (d : Nat) : Char := Char.ofNat (48 + d)

/-- Decimal digit characters of a natural number, most significant first. -/
def natChars (n : Nat) : List Char :=
  if _h : n < 10 then [digitChar n]
  else natChars (n / 10) ++ [digitChar (n % 10)]
  termination_by n
  decreasing_by
    exact Nat.div_lt_self (by omega) (by omega)

/-- Decimal character form of an integer. -/
def intChars (i : Int) : List Char :=
  if i < 0 then '-' :: natChars i.natAbs else natChars i.natAbs

/-- Model of JavaScript number-to-string conversion (see `digitChar`). -/
def numToString (q : ℚ) : String :=
  if q.den = 1 then String.mk (intChars q.num)
  else String.mk (intChars q.num ++ '/' :: natChars q.den)

/-- Model of JavaScript `String(val)` on a cell value
(`String(null) = "null"`, only ever observed behind null guards). -/
def valueToString (v : Value) : String :=
  match v with
  | .vNum q => numToString q
  | .vStr s => s
  | .vNull => "null"

/-- Model of `s.includes(t)`: `t` occurs as a contiguous substring of `s`. -/
def strIncludes (s t : String) : Bool :=
  decide (t.data <:+: s.data)

/-- Model of `s.toLowerCase()` on the characters the engine handles:
character-wise ASCII lower-casing. -/
def strToLower (s : String) : String :=
  String.mk (s.data.map Char.toLower)

/-- JavaScript whitespace as far as `trim` is concerned, restricted to the
common ASCII whitespace characters. -/
def isWsChar (c : Char) : Bool :=
  c = ' ' || c = '\t' || c = '\n' || c = '\r'

/-- Model of `s.trim()`: strip whitespace from both ends. -/
def strTrim (s : String) : String :=
  String.mk (((s.data.dropWhile isWsChar).reverse.dropWhile isWsChar).reverse)

/-- Model of `a.localeCompare(b)` in the default locale on the values the
engine compares: lexicographic character comparison, returning -1, 0 or 1. -/
def localeCmp (a b : String) : Int :=
  match compare a b with
  | .lt => -1
  | .eq => 0
  | .gt => 1

/-! ## ResultView Engine: filter, sort, paginate (DataTable component) -/

/-- Whether one row survives the search filter for a (lower-cased) term:
some declared column holds a non-null value whose lower-cased string form
contains the term. -/
def rowMatches (columns : List Column) (term : String) (row : Row) : Bool :=
  columns.any fun col =>
    let val := getV row col.name
    val ≠ Value.vNull && strIncludes (strToLower (valueToString val)) term

/-- The `filteredData` memo of DataTable: if the search term trims to the
empty string all rows are returned; otherwise rows are filtered by the
untrimmed, lower-cased term. -/
def filteredData (data : List Row) (columns : List Column) (searchTerm : String) :
    List Row :=
  if strTrim searchTerm = "" then data
  else
    let term := strToLower searchTerm
    data.filter (rowMatches columns term)

/-- Sort direction (the `null` direction is modelled by `Option Dir`). -/
inductive Dir
  | asc
  | desc
deriving DecidableEq, Repr

/-- The comparator passed to `Array.prototype.sort` in `sortedData`:
null/undefined keys compare after everything, two numbers compare by
signed subtraction (direction-reversed), anything else by locale
comparison of the string forms (direction-reversed). -/
def jsCompare (dir : Dir) (a b : Value) : ℚ :=
  match a, b with
  | .vNull, _ => 1
  | _, .vNull => -1
  | .vNum x, .vNum y =>
      match dir with
      | .asc => x - y
      | .desc => y - x
  | a, b =>
      match dir with
      | .asc => (localeCmp (valueToString a) (valueToString b) : ℚ)
      | .desc => (localeCmp (valueToString b) (valueToString a) : ℚ)

/-- Insert into an already-sorted list, preserving the relative order of
ties: the model of one step of a stable comparison sort. -/
def insertSorted (le : α → α → Bool) (a : α) : List α → List α
  | [] => [a]
  | b :: l => if le a b then a :: b :: l else b :: insertSorted le a l

/-- Stable comparison sort, the model of `Array.prototype.sort` with a
user comparator (stable per the ECMAScript specification). -/
def sortWith (le : α → α → Bool) : List α → List α
  | [] => []
  | a :: l => insertSorted le a (sortWith le l)

/-- The `sortedData` memo of DataTable: identity when no sort column or
direction is active, otherwise a stable sort by the comparator on the
designated column's values. -/
def sortedData (sortColumn : Option String) (sortDirection : Option Dir)
    (rows : List Row) : List Row :=
  match sortColumn, sortDirection with
  | some c, some d =>
      sortWith (fun a b => decide (jsCompare d (getV a c) (getV b c) ≤ 0)) rows
  | _, _ => rows

/-- The fixed page size of the table. -/
def pageSize : Nat := 25

/-- The `paginatedData` memo: `sortedData.slice(page*25, page*25+25)`. -/
def paginatedData (rows : List Row) (page : Nat) : List Row :=
  (rows.drop (page * pageSize)).take pageSize

/-- `totalPages = Math.ceil(filteredData.length / pageSize)`. -/
def totalPages (filteredCount : Nat) : Nat :=
  (filteredCount + pageSize - 1) / pageSize

/-! ## SummaryStatistics Calculator (SummaryStats component)

Stat cards are modelled with their label, their primary value as the raw
number from which the displayed string is formatted, the raw numbers of the
secondary line, and the optional trend; icons and colours are purely
presentational and omitted. -/

/-- Trend marker of a stat card. -/
inductive Trend
  | up
  | down
  | neutral
deriving DecidableEq, Repr

/-- A derived stat card (see the section comment for the value fields). -/
structure StatCard where
  label : String
  value : ℚ
  sub : List ℚ
  trend : Option Trend
deriving DecidableEq, Repr

/-- Label formatting: underscores become spaces, and every word-start
character (a `\w` character not preceded by one) is upper-cased. -/
def capWordStarts (prevWord : Bool) : List Char → List Char
  | [] => []
  | c :: rest =>
      let isW := c.isAlphanum || c = '_'
      (if !prevWord && isW then c.toUpper else c) :: capWordStarts isW rest

/-- `formatLabel` of SummaryStats. -/
def formatLabel (name : String) : String :=
  String.mk (capWordStarts false (name.data.map fun c => if c = '_' then ' ' else c))

/-- The numeric values of one column over all rows, in row order;
non-numeric and null values are excluded, not coerced. -/
def numericValues (data : List Row) (colName : String) : List ℚ :=
  (data.map fun r => getV r colName).filterMap fun v =>
    match v with
    | .vNum q => some q
    | _ => none

/-- The row-count card. -/
def rowCountCard (data : List Row) : StatCard :=
  ⟨"Total Rows", (data.length : ℚ), [], none⟩

/-- The "Total first-measure" card segment: emitted only when the first
measure column has at least one numeric value; carries the sum with the
mean as secondary value. -/
def sumCards (data : List Row) (m0 : Column) : List StatCard :=
  let values := numericValues data m0.name
  if 0 < values.length then
    [⟨"Total " ++ formatLabel m0.name, values.sum, [values.sum / values.length], none⟩]
  else []

/-- The "Avg second-measure" card segment: mean as primary value, min and
max as the secondary range. -/
def avgCards (data : List Row) (m1 : Column) : List StatCard :=
  match numericValues data m1.name with
  | [] => []
  | v :: vs =>
      let values := v :: vs
      [⟨"Avg " ++ formatLabel m1.name, values.sum / values.length,
        [vs.foldl min v, vs.foldl max v], none⟩]

/-- The "Change" card segment: emitted when there are at least two rows and
the first and last rows hold numbers in the first measure column with a
non-zero first value; the value is the percentage change and the trend is
up exactly when the change is non-negative. -/
def growthCards (data : List Row) (m0 : Column) : List StatCard :=
  if 2 ≤ data.length then
    match getV (data.headD []) m0.name, getV (data.getLastD []) m0.name with
    | .vNum first, .vNum last =>
        if first ≠ 0 then
          let change := ((last - first) / |first|) * 100
          [⟨"Change", change, [first, last],
            some (if 0 ≤ change then Trend.up else Trend.down)⟩]
        else []
    | _, _ => []
  else []

/-- The measure-typed columns, in declared order. -/
def measureColumns (columns : List Column) : List Column :=
  columns.filter fun c => c.type = "measure"

/-- The three optional card segments over the measure columns. -/
def measureCards (data : List Row) (measureCols : List Column) : List StatCard :=
  (match measureCols with
   | m0 :: _ => sumCards data m0
   | [] => []) ++
  (match measureCols with
   | _ :: m1 :: _ => avgCards data m1
   | _ => []) ++
  (match measureCols with
   | m0 :: _ => growthCards data m0
   | [] => [])

/-- The `stats` memo of SummaryStats: empty when there are no rows or no
columns; otherwise the row-count card followed by the optional sum, average
and change segments over the measure-typed columns, truncated to 4 cards. -/
def summaryStats (data : List Row) (columns : List Column) : List StatCard :=
  if data.length = 0 ∨ columns.length = 0 then []
  else (rowCountCard data :: measureCards data (measureColumns columns)).take 4

/-- The cards of a stat list carrying a given label. -/
def cardsLabeled (lab : String) (cards : List StatCard) : List StatCard :=
  cards.filter fun c => c.label = lab

/-! ## Export Serializer (ExportButton component) -/

/-- Join a list of strings with a separator, the model of `Array.join`. -/
def joinSep (sep : String) : List String → String
  | [] => ""
  | [s] => s
  | s :: rest => s ++ sep ++ joinSep sep rest

/-- Whether a string contains a comma, a double quote, or a newline. -/
def strHasSpecial (s : String) : Bool :=
  s.data.any fun c => c = ',' || c = '"' || c = '\n'

/-- Double every double-quote character, the model of
`val.replace` of every quote by two quotes. -/
def doubleQuotes : List Char → List Char
  | [] => []
  | c :: rest => (if c = '"' then ['"', '"'] else [c]) ++ doubleQuotes rest

/-- Wrap in double quotes with internal quotes doubled. -/
def quoteWrap (s : String) : String :=
  "\"" ++ String.mk (doubleQuotes s.data) ++ "\""

/-- One CSV cell of `exportCSV`: null/undefined becomes an empty field, a
string containing a comma, quote or newline is quote-wrapped with quotes
doubled, everything else is the plain string form. -/
def csvCell (v : Value) : String :=
  match v with
  | .vNull => ""
  | .vStr s => if strHasSpecial s then quoteWrap s else s
  | .vNum q => numToString q

/-- The CSV serialization of `exportCSV`: the comma-joined header line
followed by one comma-joined line per row, newline-joined. -/
def exportCSV (data : List Row) (columns : List Column) : String :=
  let headers := columns.map (·.name)
  joinSep "\n"
    (joinSep "," headers ::
      data.map fun row => joinSep "," (headers.map fun h => csvCell (getV row h)))

/-- Modelled from the spec: re-parsing one serialized CSV field (the
repository itself ships no CSV reader).  A field wrapped in double quotes
is unwrapped and its doubled quotes collapsed; any other field is taken
verbatim. -/
def undoubleQuotes : List Char → List Char
  | [] => []
  | [c] => [c]
  | c1 :: c2 :: rest =>
      if c1 = '"' ∧ c2 = '"' then '"' :: undoubleQuotes rest
      else c1 :: undoubleQuotes (c2 :: rest)

/-- Modelled from the spec: the CSV field reader (see `undoubleQuotes`). -/
def csvUnescape (s : String) : String :=
  if 2 ≤ s.data.length ∧ s.data.head? = some '"' ∧ s.data.getLast? = some '"' then
    String.mk (undoubleQuotes ((s.data.drop 1).dropLast))
  else s

/-- The cell serialization the spec describes: quoting decided by the
string FORM of the value (for any value), rather than by the value being a
string.  Used to compare the implementation against the spec's wording. -/
def csvSpecCell (v : Value) : String :=
  match v with
  | .vNull => ""
  | v =>
      let s := valueToString v
      if strHasSpecial s then quoteWrap s else s

/-- The CSV serialization as the spec words it (see `csvSpecCell`). -/
def csvSpecExport (data : List Row) (columns : List Column) : String :=
  let headers := columns.map (·.name)
  joinSep "\n"
    (joinSep "," headers ::
      data.map fun row => joinSep "," (headers.map fun h => csvSpecCell (getV row h)))

/-- JSON string escaping of `JSON.stringify` restricted to the characters
our value model can contain: quote, backslash and newline. -/
def jsonEscape : List Char → List Char
  | [] => []
  | c :: rest =>
      (if c = '"' then ['\\', '"']
       else if c = '\\' then ['\\', '\\']
       else if c = '\n' then ['\\', 'n'] else [c]) ++ jsonEscape rest

/-- A JSON string literal. -/
def jsonQuote (s : String) : String :=
  "\"" ++ String.mk (jsonEscape s.data) ++ "\""

/-- A JSON scalar. -/
def jsonValue : Value → String
  | .vNull => "null"
  | .vNum q => numToString q
  | .vStr s => jsonQuote s

/-- Indentation of `JSON.stringify(_, null, 2)`. -/
def jsonIndent (n : Nat) : String := String.mk (List.replicate n ' ')

/-- One row object as pretty-printed by `JSON.stringify(_, null, 2)` at
nesting indentation `ind`: every key/value pair of the row is serialized. -/
def jsonObject (ind : Nat) (r : Row) : String :=
  match r with
  | [] => "\x7b\x7d"
  | _ =>
      "\x7b\n" ++
        joinSep ",\n"
          (r.map fun kv => jsonIndent (ind + 2) ++ jsonQuote kv.1 ++ ": " ++ jsonValue kv.2) ++
        "\n" ++ jsonIndent ind ++ "\x7d"

/-- The JSON serialization of `exportJSON`: `JSON.stringify(data, null, 2)`
of the row objects.  The declared column list is accepted (mirroring the
component's props) but plays no part in the output. -/
def exportJSON (data : List Row) (columns : List Column) : String :=
  let _ := columns
  match data with
  | [] => "[]"
  | _ =>
      "[\n" ++
        joinSep ",\n" (data.map fun r => jsonIndent 2 ++ jsonObject 2 r) ++
        "\n]"

/-! ## QueryHistory Ledger (useQueryHistory hook) -/

/-- One persisted history entry.  JavaScript numbers are rationals, as in
the value model. -/
structure HistoryItem where
  id : String
  question : String
  timestamp : Nat
  rowCount : Nat
  executionTime : Nat
  confidence : ℚ
deriving DecidableEq, Repr

/-- The payload of `addToHistory` before the id and timestamp are minted. -/
structure NewItem where
  question : String
  rowCount : Nat
  executionTime : Nat
  confidence : ℚ
deriving DecidableEq, Repr

/-- The ledger capacity. -/
def MAX_HISTORY : Nat := 50

/-- The history item minted by `addToHistory` for a payload, a freshly
generated id string and the current time. -/
def mintItem (item : NewItem) (newId : String) (now : Nat) : HistoryItem :=
  ⟨newId, item.question, now, item.rowCount, item.executionTime, item.confidence⟩

/-- The state transition of `addToHistory`: remove every entry whose
question matches the new question case-insensitively, prepend the minted
item, and truncate to the capacity. -/
def addToHistory (prev : List HistoryItem) (item : NewItem) (newId : String)
    (now : Nat) : List HistoryItem :=
  let newItem := mintItem item newId now
  let filtered := prev.filter fun h => strToLower h.question ≠ strToLower item.question
  (newItem :: filtered).take MAX_HISTORY

/-- The state transition of `removeFromHistory`. -/
def removeFromHistory (prev : List HistoryItem) (targetId : String) :
    List HistoryItem :=
  prev.filter fun h => h.id ≠ targetId

/-! ## Ledger hydration (the mount effect of useQueryHistory)

The stored value is fed through `JSON.parse` and the parse result is
installed as the history state without any schema validation, so hydration
is modelled as producing a JSON value; the empty ledger is the empty JSON
array (the hook's initial state). -/

/-- A JSON value, the result type of `JSON.parse`. -/
inductive Json
  | jNull
  | jBool (b : Bool)
  | jNum (q : ℚ)
  | jStr (s : String)
  | jArr (l : List Json)
  | jObj (l : List (String × Json))

/-- JSON whitespace. -/
def isJsonWs (c : Char) : Bool :=
  c = ' ' || c = '\n' || c = '\t' || c = '\r'

/-- Drop leading JSON whitespace. -/
def skipWs (cs : List Char) : List Char := cs.dropWhile isJsonWs

/-- Unescape one backslash-escaped character of a JSON string literal. -/
def jsonUnescChar (c : Char) : Char := if c = 'n' then '\n' else c

/-- Parse the remainder of a JSON string literal after its opening quote,
returning the decoded characters and the input after the closing quote. -/
def parseStrChars : List Char → Option (List Char × List Char)
  | [] => none
  | '"' :: rest => some ([], rest)
  | '\\' :: c :: rest =>
      (parseStrChars rest).map fun p => (jsonUnescChar c :: p.1, p.2)
  | c :: rest =>
      (parseStrChars rest).map fun p => (c :: p.1, p.2)

/-- Split off leading decimal digits. -/
def spanDigits (cs : List Char) : List Char × List Char :=
  (cs.takeWhile Char.isDigit, cs.dropWhile Char.isDigit)

/-- Numeric value of a digit string. -/
def digitsToNat (l : List Char) : Nat :=
  l.foldl (fun a c => a * 10 + (c.toNat - 48)) 0

/-- Parse a JSON number (optional minus sign, integer part, optional
fractional part). -/
def parseNumber (cs : List Char) : Option (ℚ × List Char) :=
  let (neg, cs1) :=
    match cs with
    | '-' :: rest => (true, rest)
    | _ => (false, cs)
  let (ds, cs2) := spanDigits cs1
  if ds = [] then none
  else
    let intPart : ℚ := (digitsToNat ds : ℚ)
    let (q, rest) :=
      match cs2 with
      | '.' :: cs3 =>
          let (fs, cs4) := spanDigits cs3
          if fs = [] then (intPart, cs2)
          else (intPart + (digitsToNat fs : ℚ) / ((10 : ℚ) ^ fs.length), cs4)
      | _ => (intPart, cs2)
    some (if neg then -q else q, rest)

mutual

/-- Recursive-descent model of `JSON.parse`, fuelled by input length. -/
def parseJson : Nat → List Char → Option (Json × List Char)
  | 0, _ => none
  | fuel + 1, cs =>
      match skipWs cs with
      | 'n' :: 'u' :: 'l' :: 'l' :: rest => some (.jNull, rest)
      | 't' :: 'r' :: 'u' :: 'e' :: rest => some (.jBool true, rest)
      | 'f' :: 'a' :: 'l' :: 's' :: 'e' :: rest => some (.jBool false, rest)
      | '"' :: rest => (parseStrChars rest).map fun p => (.jStr (String.mk p.1), p.2)
      | '[' :: rest =>
          (match skipWs rest with
           | ']' :: rest2 => some (.jArr [], rest2)
           | rest2 =>
               (parseArrItems fuel rest2).map fun p => (.jArr p.1, p.2))
      | '\x7b' :: rest =>
          (match skipWs rest with
           | '\x7d' :: rest2 => some (.jObj [], rest2)
           | rest2 =>
               (parseObjItems fuel rest2).map fun p => (.jObj p.1, p.2))
      | cs2 => (parseNumber cs2).map fun p => (.jNum p.1, p.2)

/-- Parse one-or-more comma-separated array elements and the closing
bracket. -/
def parseArrItems : Nat → List Char → Option (List Json × List Char)
  | 0, _ => none
  | fuel + 1, cs =>
      match parseJson fuel cs with
      | none => none
      | some (v, rest) =>
          match skipWs rest with
          | ',' :: rest2 =>
              (parseArrItems fuel rest2).map fun p => (v :: p.1, p.2)
          | ']' :: rest2 => some ([v], rest2)
          | _ => none

/-- Parse one-or-more comma-separated object members and the closing
brace. -/
def parseObjItems : Nat → List Char → Option (List (String × Json) × List Char)
  | 0, _ => none
  | fuel + 1, cs =>
      match skipWs cs with
      | '"' :: rest =>
          match parseStrChars rest with
          | none => none
          | some (key, rest1) =>
              match skipWs rest1 with
              | ':' :: rest2 =>
                  match parseJson fuel rest2 with
                  | none => none
                  | some (v, rest3) =>
                      match skipWs rest3 with
                      | ',' :: rest4 =>
                          (parseObjItems fuel rest4).map fun p =>
                            ((String.mk key, v) :: p.1, p.2)
                      | '\x7d' :: rest4 => some ([(String.mk key, v)], rest4)
                      | _ => none
              | _ => none
      | _ => none

end

/-- `JSON.parse` on a whole string: the parse must consume everything but
trailing whitespace. -/
def parseJsonStr (s : String) : Option Json :=
  match parseJson (s.data.length + 1) s.data with
  | some (v, rest) => if skipWs rest = [] then some v else none
  | none => none

/-- Hydration of the ledger from storage on mount: a missing or empty
stored value leaves the initial empty array; a stored value that fails to
parse resets to the empty array; a stored value that parses installs the
parse result as-is. -/
def hydrateHistory (stored : Option String) : Json :=
  match stored with
  | none => .jArr []
  | some s =>
      if s = "" then .jArr []
      else
        match parseJsonStr s with
        | some v => v
        | none => .jArr []

/-! ## Helper lemmas -/

theorem strData_append (a b : String) : (a ++ b).data = a.data ++ b.data := rfl

theorem mem_insertSorted {le : α → α → Bool} {a x : α} :
    ∀ {l : List α}, x ∈ insertSorted le a l → x = a ∨ x ∈ l
  | [], h => by simpa [insertSorted] using h
  | b :: t, h => by
      rw [insertSorted] at h
      split at h
      · rcases List.mem_cons.mp h with h | h
        · exact Or.inl h
        · exact Or.inr h
      · rcases List.mem_cons.mp h with h | h
        · exact Or.inr (by simp [h])
        · rcases mem_insertSorted h with h | h
          · exact Or.inl h
          · exact Or.inr (by simp [h])

theorem pairwise_insertSorted {p : α → Prop} {le : α → α → Bool} {a : α} {l : List α}
    (hf : ∀ x y, p x → le x y = false)
    (ht : ∀ x y, ¬ p x → p y → le x y = true)
    (hl : l.Pairwise fun x y => p x → p y) :
    (insertSorted le a l).Pairwise fun x y => p x → p y := by
  induction l with
  | nil => simp [insertSorted]
  | cons b t ih =>
      rcases List.pairwise_cons.mp hl with ⟨hb, ht2⟩
      rw [insertSorted]
      by_cases hle : le a b = true
      · rw [if_pos hle]
        refine List.pairwise_cons.mpr ⟨?_, hl⟩
        intro x _hx hpa
        exact absurd hle (by simp [hf a b hpa])
      · rw [if_neg hle]
        refine List.pairwise_cons.mpr ⟨?_, ih ht2⟩
        intro x hx hpb
        rcases mem_insertSorted hx with rfl | hx'
        · by_contra hpa
          exact hle (ht x b hpa hpb)
        · exact hb x hx' hpb

theorem pairwise_sortWith {p : α → Prop} {le : α → α → Bool}
    (hf : ∀ x y, p x → le x y = false)
    (ht : ∀ x y, ¬ p x → p y → le x y = true) :
    ∀ l : List α, (sortWith le l).Pairwise fun x y => p x → p y
  | [] => by simp [sortWith]
  | a :: l => by
      rw [sortWith]
      exact pairwise_insertSorted hf ht (pairwise_sortWith hf ht l)

theorem jsCompare_null_left (d : Dir) (b : Value) : jsCompare d Value.vNull b = 1 := by
  cases b <;> rfl

theorem jsCompare_null_right (d : Dir) (a : Value) (h : a ≠ Value.vNull) :
    jsCompare d a Value.vNull = -1 := by
  cases a with
  | vNum q => rfl
  | vStr s => rfl
  | vNull => exact absurd rfl h

/-! ## C2: sorting of the result view -/

/-- C2.  For every list of rows, sort column and direction in asc/desc:
in the sorted output every row whose sort-key is null/undefined comes after
every row with a non-null key, in both directions; the comparator orders
two numeric keys by signed subtraction (reversed for desc) and any other
non-null pairing by locale comparison of the string forms (reversed for
desc). -/
theorem c2_sort_nulls_last_and_comparator (rows : List Row) (c : String) (d : Dir) :
    (sortedData (some c) (some d) rows).Pairwise
      (fun a b => getV a c = Value.vNull → getV b c = Value.vNull) ∧
    (∀ x y : ℚ, jsCompare Dir.asc (.vNum x) (.vNum y) = x - y ∧
        jsCompare Dir.desc (.vNum x) (.vNum y) = y - x) ∧
    (∀ a b : Value, a ≠ Value.vNull → b ≠ Value.vNull →
        (∀ x y : ℚ, ¬(a = .vNum x ∧ b = .vNum y)) →
        jsCompare Dir.asc a b = (localeCmp (valueToString a) (valueToString b) : ℚ) ∧
        jsCompare Dir.desc a b = (localeCmp (valueToString b) (valueToString a) : ℚ)) := by
  refine ⟨?_, fun x y => ⟨rfl, rfl⟩, ?_⟩
  · rw [sortedData]
    apply pairwise_sortWith (p := fun r => getV r c = Value.vNull)
    · intro x y hx
      rw [hx, decide_eq_false_iff_not]
      rw [jsCompare_null_left]
      norm_num
    · intro x y hx hy
      rw [hy, decide_eq_true_eq]
      rw [jsCompare_null_right d _ hx]
      norm_num
  · intro a b ha hb hnn
    cases a with
    | vNull => exact absurd rfl ha
    | vNum x =>
        cases b with
        | vNull => exact absurd rfl hb
        | vNum y => exact absurd ⟨rfl, rfl⟩ (hnn x y)
        | vStr t => exact ⟨rfl, rfl⟩
    | vStr s =>
        cases b with
        | vNull => exact absurd rfl hb
        | vNum y => exact ⟨rfl, rfl⟩
        | vStr t => exact ⟨rfl, rfl⟩

/-- C2 witness: the comparator facts evaluated at concrete values, via the
theorem itself. -/
theorem c2_witness :
    jsCompare Dir.asc (.vNum 5) (.vNum 3) = 2 ∧
    jsCompare Dir.asc (.vStr "a") (.vStr "b") =
      (localeCmp "a" "b" : ℚ) := by
  have h := c2_sort_nulls_last_and_comparator [] "k" Dir.asc
  refine ⟨?_, ?_⟩
  · rw [(h.2.1 5 3).1]; norm_num
  · exact (h.2.2 (.vStr "a") (.vStr "b") (by simp) (by simp)
      (by intro x y hxy; exact Value.noConfusion hxy.1)).1

/-! ## C3, C4: the history ledger transition -/

/-- The state after `addToHistory`, written out. -/
theorem addToHistory_eq (prev : List HistoryItem) (item : NewItem) (newId : String)
    (now : Nat) :
    addToHistory prev item newId now =
      mintItem item newId now ::
        (prev.filter fun h => strToLower h.question ≠ strToLower item.question).take 49 := by
  rw [addToHistory]
  show (_ :: _).take 50 = _
  rw [show (50 : Nat) = 49 + 1 from rfl, List.take_succ_cons]

/-- C3.  After any `addToHistory`, exactly one entry matches the new
question case-insensitively; it sits at index 0 and is the freshly minted
item (new metadata, fresh timestamp, fresh id). -/
theorem c3_history_dedup (prev : List HistoryItem) (item : NewItem) (newId : String)
    (now : Nat) :
    (addToHistory prev item newId now).head? = some (mintItem item newId now) ∧
    (addToHistory prev item newId now).filter
        (fun h => strToLower h.question = strToLower item.question) =
      [mintItem item newId now] := by
  rw [addToHistory_eq]
  refine ⟨rfl, ?_⟩
  rw [List.filter_cons_of_pos (by simp [mintItem])]
  rw [List.filter_eq_nil_iff.mpr]
  intro a ha
  have ha2 := List.take_subset _ _ ha
  have := List.of_mem_filter ha2
  simpa using this

/-- C4.  The ledger never exceeds 50 entries, and inserting a question with
no case-insensitive match into a full 50-entry ledger keeps the newest 49
old entries (evicting the oldest, the last in newest-first order) below the
minted item, for a total of exactly 50. -/
theorem c4_history_capacity (prev : List HistoryItem) (item : NewItem) (newId : String)
    (now : Nat) :
    (addToHistory prev item newId now).length ≤ MAX_HISTORY ∧
    (prev.length = MAX_HISTORY →
      (∀ h ∈ prev, strToLower h.question ≠ strToLower item.question) →
      addToHistory prev item newId now = mintItem item newId now :: prev.take 49 ∧
      (addToHistory prev item newId now).length = MAX_HISTORY) := by
  constructor
  · rw [addToHistory]
    exact List.length_take_le _ _
  · intro hlen hno
    have hfil : (prev.filter fun h => strToLower h.question ≠ strToLower item.question) = prev := by
      rw [List.filter_eq_self]
      intro a ha
      simpa using hno a ha
    constructor
    · rw [addToHistory_eq, hfil]
    · rw [addToHistory_eq, hfil]
      simp [List.length_take, hlen, MAX_HISTORY]

/-- C4 witness: a concrete full 50-entry ledger and a fresh question, run
through the theorem. -/
theorem c4_history_capacity_witness :
    (addToHistory (List.replicate 50 ⟨"i", "a", 0, 0, 0, 1⟩) ⟨"b", 1, 2, 1⟩ "id2" 7).length
        = MAX_HISTORY ∧
    addToHistory (List.replicate 50 ⟨"i", "a", 0, 0, 0, 1⟩) ⟨"b", 1, 2, 1⟩ "id2" 7 =
      mintItem ⟨"b", 1, 2, 1⟩ "id2" 7 ::
        (List.replicate 50 (⟨"i", "a", 0, 0, 0, 1⟩ : HistoryItem)).take 49 := by
  have h := (c4_history_capacity (List.replicate 50 ⟨"i", "a", 0, 0, 0, 1⟩)
    ⟨"b", 1, 2, 1⟩ "id2" 7).2 (by simp [MAX_HISTORY])
    (by
      intro x hx
      rw [List.eq_of_mem_replicate hx]
      decide)
  exact ⟨h.2, h.1⟩

/-! ## C7: pagination -/

/-- Concatenating the first `k` pages yields the first `k * pageSize`
elements. -/
theorem pages_join_take (l : List Row) :
    ∀ k : Nat, ((List.range k).map fun i => paginatedData l i).flatten = l.take (k * pageSize)
  | 0 => by simp
  | k + 1 => by
      rw [List.range_succ, List.map_append, List.flatten_append, pages_join_take l k]
      show _ = l.take ((k + 1) * pageSize)
      rw [Nat.succ_mul, List.take_add]
      simp [paginatedData]

/-- C7.  For any filtered sequence of at most 1000 rows: the concatenation
of pages 0 .. totalPages-1 (size 25) is exactly the sequence; a page whose
start index is at or past the end is empty; and `totalPages` is the ceiling
of length / 25. -/
theorem c7_pagination_partition (l : List Row) (_hlen : l.length ≤ 1000) :
    ((List.range (totalPages l.length)).map fun i => paginatedData l i).flatten = l ∧
    (∀ p : Nat, l.length ≤ p * pageSize → paginatedData l p = []) ∧
    l.length ≤ pageSize * totalPages l.length ∧
    pageSize * totalPages l.length < l.length + pageSize := by
  refine ⟨?_, ?_, ?_, ?_⟩
  · rw [pages_join_take]
    apply List.take_of_length_le
    rw [totalPages, pageSize]
    omega
  · intro p hp
    rw [paginatedData, List.drop_eq_nil_of_le]
    · rfl
    · rw [pageSize] at hp ⊢
      omega
  · rw [totalPages, pageSize]; omega
  · rw [totalPages, pageSize]; omega

/-- C7 witness: a concrete 3-row sequence, via the theorem. -/
theorem c7_pagination_partition_witness :
    ((List.range (totalPages ([[("a", Value.vNum 1)], [], [("b", Value.vStr "x")]] : List Row).length)).map
        fun i => paginatedData [[("a", Value.vNum 1)], [], [("b", Value.vStr "x")]] i).flatten =
      [[("a", Value.vNum 1)], [], [("b", Value.vStr "x")]] ∧
    paginatedData ([[("a", Value.vNum 1)], [], [("b", Value.vStr "x")]] : List Row) 1 = [] := by
  have h := c7_pagination_partition [[("a", Value.vNum 1)], [], [("b", Value.vStr "x")]]
    (by decide)
  exact ⟨h.1, h.2.1 1 (by decide)⟩

/-! ## C10: search-term whitespace handling -/

/-- C10.  A whitespace-only search term leaves the data unfiltered; a term
with non-whitespace content filters by the untrimmed lower-cased term, so
leading/trailing whitespace in such a term is significant (demonstrated on
a concrete row that a trimmed term would match). -/
theorem c10_search_whitespace (data : List Row) (columns : List Column) (term : String) :
    (strTrim term = "" → filteredData data columns term = data) ∧
    (strTrim term ≠ "" →
      filteredData data columns term = data.filter (rowMatches columns (strToLower term))) ∧
    filteredData [[("a", Value.vStr "xy")]] [⟨"a", "dimension"⟩] " x" = [] ∧
    filteredData [[("a", Value.vStr "xy")]] [⟨"a", "dimension"⟩] "x" =
      [[("a", Value.vStr "xy")]] := by
  refine ⟨?_, ?_, by decide, by decide⟩
  · intro h
    rw [filteredData, if_pos h]
  · intro h
    rw [filteredData, if_neg h]

/-- C10 witness: the two branches evaluated at concrete inputs, via the
theorem. -/
theorem c10_search_whitespace_witness :
    filteredData [[("a", Value.vStr "xy")]] [⟨"a", "dimension"⟩] " \t " =
      [[("a", Value.vStr "xy")]] ∧
    filteredData [[("a", Value.vStr "xy")]] [⟨"a", "dimension"⟩] "Y" =
      [[("a", Value.vStr "xy")]] := by
  constructor
  · exact (c10_search_whitespace [[("a", Value.vStr "xy")]] [⟨"a", "dimension"⟩] " \t ").1
      (by decide)
  · rw [(c10_search_whitespace [[("a", Value.vStr "xy")]] [⟨"a", "dimension"⟩] "Y").2.1
      (by decide)]
    decide

/-! ## C1: the row-count card -/

/-- C1 counterexample: a result set with one row but an empty column list
produces NO cards at all — the row-count card is not emitted, refuting
"regardless of the column list". -/
theorem c1_rowcount_cex :
    summaryStats [[("x", Value.vNum 1)]] [] = [] ∧
    ([[("x", Value.vNum 1)]] : List Row).length = 1 := by
  exact ⟨rfl, rfl⟩

/-- C1 amended: for every result set with at least one row AND at least one
column, the stats are non-empty and the first card is the row-count card,
whose value is the number of rows. -/
theorem c1_rowcount_first (data : List Row) (columns : List Column)
    (hd : data ≠ []) (hc : columns ≠ []) :
    (summaryStats data columns).head? = some (rowCountCard data) ∧
    summaryStats data columns ≠ [] ∧
    (rowCountCard data).value = (data.length : ℚ) := by
  have hcond : ¬(data.length = 0 ∨ columns.length = 0) := by
    simp only [List.length_eq_zero, not_or]
    exact ⟨hd, hc⟩
  rw [summaryStats, if_neg hcond]
  refine ⟨rfl, by simp, rfl⟩

/-- C1 witness: one row and one column, via the theorem. -/
theorem c1_rowcount_first_witness :
    (summaryStats [[("x", Value.vNum 1)]] [⟨"x", "measure"⟩]).head? =
      some (rowCountCard [[("x", Value.vNum 1)]]) ∧
    summaryStats [[("x", Value.vNum 1)]] [⟨"x", "measure"⟩] ≠ [] := by
  have h := c1_rowcount_first [[("x", Value.vNum 1)]] [⟨"x", "measure"⟩]
    (by simp) (by simp)
  exact ⟨h.1, h.2.1⟩

/-! ## C5: the Change card -/

theorem total_label_ne_change (s : String) : "Total " ++ s ≠ "Change" := by
  intro h
  have h2 : ("Total " ++ s).data.head? = "Change".data.head? := by rw [h]
  have h3 : ("Total " ++ s).data.head? = some 'T' := rfl
  rw [h3] at h2
  exact absurd h2 (by decide)

theorem avg_label_ne_change (s : String) : "Avg " ++ s ≠ "Change" := by
  intro h
  have h2 : ("Avg " ++ s).data.head? = "Change".data.head? := by rw [h]
  have h3 : ("Avg " ++ s).data.head? = some 'A' := rfl
  rw [h3] at h2
  exact absurd h2 (by decide)

theorem rowCountCard_label (data : List Row) :
    (rowCountCard data).label = "Total Rows" := rfl

theorem cardsLabeled_append (lab : String) (a b : List StatCard) :
    cardsLabeled lab (a ++ b) = cardsLabeled lab a ++ cardsLabeled lab b :=
  List.filter_append _ _

theorem cardsLabeled_cons_ne (lab : String) (c : StatCard) (rest : List StatCard)
    (h : c.label ≠ lab) :
    cardsLabeled lab (c :: rest) = cardsLabeled lab rest := by
  unfold cardsLabeled
  rw [List.filter_cons_of_neg]
  simpa using h

theorem cardsLabeled_change_sumCards (data : List Row) (m0 : Column) :
    cardsLabeled "Change" (sumCards data m0) = [] := by
  simp only [sumCards]
  split
  · exact cardsLabeled_cons_ne _ _ _ (total_label_ne_change _)
  · rfl

theorem cardsLabeled_change_avgCards (data : List Row) (m1 : Column) :
    cardsLabeled "Change" (avgCards data m1) = [] := by
  unfold avgCards
  split
  · rfl
  · exact cardsLabeled_cons_ne _ _ _ (avg_label_ne_change _)

theorem cardsLabeled_change_growthCards (data : List Row) (m0 : Column) :
    cardsLabeled "Change" (growthCards data m0) = growthCards data m0 := by
  unfold growthCards
  split
  · split
    · split
      · simp [cardsLabeled]
      · rfl
    · rfl
  · rfl

theorem sumCards_length_le (data : List Row) (m0 : Column) :
    (sumCards data m0).length ≤ 1 := by
  simp only [sumCards]
  split <;> simp

theorem avgCards_length_le (data : List Row) (m1 : Column) :
    (avgCards data m1).length ≤ 1 := by
  unfold avgCards
  split <;> simp

theorem growthCards_length_le (data : List Row) (m0 : Column) :
    (growthCards data m0).length ≤ 1 := by
  unfold growthCards
  split
  · split
    · split <;> simp
    · simp
  · simp

/-- With rows and columns present, the 4-card truncation never drops a
card, so the stats are exactly the row-count card plus the three optional
segments. -/
theorem summaryStats_eq (data : List Row) (columns : List Column)
    (hd : data.length ≠ 0) (hc : columns.length ≠ 0) :
    summaryStats data columns =
      rowCountCard data :: measureCards data (measureColumns columns) := by
  rw [summaryStats, if_neg (by simp [hd, hc])]
  apply List.take_of_length_le
  have hs : ∀ mcs : List Column, (measureCards data mcs).length ≤ 3 := by
    intro mcs
    rw [measureCards.eq_def]
    have h1 : (match mcs with
        | m0 :: _ => sumCards data m0
        | [] => ([] : List StatCard)).length ≤ 1 := by
      cases mcs with
      | nil => simp
      | cons m0 t => exact sumCards_length_le data m0
    have h2 : (match mcs with
        | _ :: m1 :: _ => avgCards data m1
        | _ => ([] : List StatCard)).length ≤ 1 := by
      cases mcs with
      | nil => simp
      | cons m0 t =>
          cases t with
          | nil => simp
          | cons m1 t2 => exact avgCards_length_le data m1
    have h3 : (match mcs with
        | m0 :: _ => growthCards data m0
        | [] => ([] : List StatCard)).length ≤ 1 := by
      cases mcs with
      | nil => simp
      | cons m0 t => exact growthCards_length_le data m0
    simp only [List.length_append]
    omega
  have := hs (measureColumns columns)
  simp only [List.length_cons]
  omega

/-- The Change-card segment, written out under the two-row hypothesis. -/
theorem growthCards_eq (data : List Row) (m0 : Column) (h2 : 2 ≤ data.length) :
    growthCards data m0 =
      match getV (data.headD []) m0.name, getV (data.getLastD []) m0.name with
      | .vNum a, .vNum b =>
          if a ≠ 0 then
            [⟨"Change", ((b - a) / |a|) * 100, [a, b],
              some (if 0 ≤ ((b - a) / |a|) * 100 then Trend.up else Trend.down)⟩]
          else []
      | _, _ => [] := by
  unfold growthCards
  rw [if_pos h2]

/-- C5 counterexample: first value numeric and non-zero, last value a
string: the claim requires a Change card, yet none is emitted. -/
theorem c5_change_card_cex :
    cardsLabeled "Change"
        (summaryStats [[("m", Value.vNum 1)], [("m", Value.vStr "x")]]
          [⟨"m", "measure"⟩]) = [] ∧
    getV (([[("m", Value.vNum 1)], [("m", Value.vStr "x")]] : List Row).headD []) "m" =
      Value.vNum 1 ∧
    ([[("m", Value.vNum 1)], [("m", Value.vStr "x")]] : List Row).length = 2 := by
  refine ⟨by decide, rfl, rfl⟩

/-- C5 amended: with at least 2 rows and a first measure column m0, the
cards labeled "Change" are exactly the growth segment; that segment is a
single card with value (last-first)/|first|*100 and trend up iff the change
is non-negative when both endpoint values are numeric and the first is
non-zero, and is empty when the first value is 0 or either endpoint value
is non-numeric. -/
theorem c5_change_card (data : List Row) (columns : List Column) (m0 : Column)
    (ms : List Column) (h2 : 2 ≤ data.length)
    (hm : measureColumns columns = m0 :: ms) :
    cardsLabeled "Change" (summaryStats data columns) = growthCards data m0 ∧
    (∀ a b : ℚ, getV (data.headD []) m0.name = .vNum a →
        getV (data.getLastD []) m0.name = .vNum b → a ≠ 0 →
        growthCards data m0 =
          [⟨"Change", ((b - a) / |a|) * 100, [a, b],
            some (if 0 ≤ ((b - a) / |a|) * 100 then Trend.up else Trend.down)⟩]) ∧
    (getV (data.headD []) m0.name = .vNum 0 → growthCards data m0 = []) ∧
    ((∀ q : ℚ, getV (data.headD []) m0.name ≠ .vNum q) → growthCards data m0 = []) ∧
    ((∀ q : ℚ, getV (data.getLastD []) m0.name ≠ .vNum q) → growthCards data m0 = []) := by
  have hd : data.length ≠ 0 := by omega
  have hc : columns.length ≠ 0 := by
    intro h0
    rw [List.length_eq_zero] at h0
    rw [h0] at hm
    simp [measureColumns] at hm
  refine ⟨?_, ?_, ?_, ?_, ?_⟩
  · rw [summaryStats_eq data columns hd hc, hm, measureCards.eq_def,
      cardsLabeled_cons_ne _ _ _ (by rw [rowCountCard_label]; decide),
      cardsLabeled_append, cardsLabeled_append,
      cardsLabeled_change_sumCards, cardsLabeled_change_growthCards]
    cases ms with
    | nil => simp [cardsLabeled]
    | cons m1 t => rw [cardsLabeled_change_avgCards]; simp
  · intro a b hfa hlb hne
    rw [growthCards_eq data m0 h2, hfa, hlb]
    show (if a ≠ 0 then _ else _) = _
    rw [if_pos hne]
  · intro h0
    rw [growthCards_eq data m0 h2, h0]
    cases hl : getV (data.getLastD []) m0.name with
    | vNum b =>
        show (if (0 : ℚ) ≠ 0 then _ else _) = _
        rw [if_neg (by simp)]
    | vStr s => rfl
    | vNull => rfl
  · intro hq
    cases hf : getV (data.headD []) m0.name with
    | vNum q => exact absurd hf (hq q)
    | vStr s => rw [growthCards_eq data m0 h2, hf]
    | vNull => rw [growthCards_eq data m0 h2, hf]
  · intro hq
    cases hf : getV (data.headD []) m0.name with
    | vNum q =>
        rw [growthCards_eq data m0 h2, hf]
        cases hl : getV (data.getLastD []) m0.name with
        | vNum b => exact absurd hl (hq b)
        | vStr s => rfl
        | vNull => rfl
    | vStr s => rw [growthCards_eq data m0 h2, hf]
    | vNull => rw [growthCards_eq data m0 h2, hf]

/-- C5 witness: rows 1 then 3 in a measure column give a +200 percent
Change card trending up, via the theorem. -/
theorem c5_change_card_witness :
    cardsLabeled "Change"
        (summaryStats [[("m", Value.vNum 1)], [("m", Value.vNum 3)]]
          [⟨"m", "measure"⟩]) =
      [⟨"Change", 200, [1, 3], some Trend.up⟩] := by
  have h := c5_change_card [[("m", Value.vNum 1)], [("m", Value.vNum 3)]]
    [⟨"m", "measure"⟩] ⟨"m", "measure"⟩ [] (by decide) (by decide)
  rw [h.1, h.2.1 1 3 rfl rfl (by norm_num)]
  norm_num

/-! ## C6: CSV serialization -/

theorem undouble_double (l : List Char) : undoubleQuotes (doubleQuotes l) = l := by
  induction l with
  | nil => rfl
  | cons c rest ih =>
      by_cases hc : c = '"'
      · subst hc
        rw [doubleQuotes, if_pos rfl]
        show undoubleQuotes ('"' :: '"' :: doubleQuotes rest) = _
        rw [undoubleQuotes, if_pos ⟨rfl, rfl⟩, ih]
      · rw [doubleQuotes, if_neg hc]
        show undoubleQuotes (c :: doubleQuotes rest) = _
        cases hdr : doubleQuotes rest with
        | nil =>
            rw [hdr] at ih
            rw [undoubleQuotes, ← ih]
            rfl
        | cons d ds =>
            rw [undoubleQuotes, if_neg (fun hand => hc hand.1), ← hdr, ih]

theorem quoteWrap_data (s : String) :
    (quoteWrap s).data = '"' :: (doubleQuotes s.data ++ ['"']) := by
  show ("\"" ++ String.mk (doubleQuotes s.data) ++ "\"").data = _
  rw [strData_append, strData_append]
  simp

/-- Re-parsing any serialized string cell recovers the original string. -/
theorem csv_roundtrip (s : String) : csvUnescape (csvCell (.vStr s)) = s := by
  show csvUnescape (if strHasSpecial s then quoteWrap s else s) = s
  by_cases hsp : strHasSpecial s = true
  · rw [if_pos hsp, csvUnescape, if_pos]
    · rw [quoteWrap_data]
      show String.mk (undoubleQuotes ((doubleQuotes s.data ++ ['"']).dropLast)) = s
      rw [List.dropLast_concat, undouble_double]
    · rw [quoteWrap_data]
      refine ⟨by simp, rfl, ?_⟩
      rw [← List.cons_append]
      exact List.getLast?_concat _
  · rw [if_neg hsp, csvUnescape, if_neg]
    rintro ⟨hlen, hh, hl⟩
    have hmem : '"' ∈ s.data := by
      cases hd : s.data with
      | nil => rw [hd] at hh; simp at hh
      | cons a t =>
          rw [hd] at hh
          simp only [List.head?_cons, Option.some.injEq] at hh
          rw [hh]
          simp
    exact hsp (by
      rw [strHasSpecial, List.any_eq_true]
      exact ⟨'"', hmem, by decide⟩)

theorem natChars_mem (n : Nat) : ∀ c ∈ natChars n, ∃ d, d < 10 ∧ c = digitChar d := by
  induction n using Nat.strong_induction_on with
  | _ n ih =>
      rw [natChars]
      split_ifs with h
      · intro c hc
        simp only [List.mem_singleton] at hc
        exact ⟨n, h, hc⟩
      · intro c hc
        rcases List.mem_append.mp hc with hc | hc
        · exact ih (n / 10) (Nat.div_lt_self (by omega) (by omega)) c hc
        · simp only [List.mem_singleton] at hc
          exact ⟨n % 10, Nat.mod_lt _ (by omega), hc⟩

theorem intChars_mem (i : Int) :
    ∀ c ∈ intChars i, c = '-' ∨ ∃ d, d < 10 ∧ c = digitChar d := by
  rw [intChars]
  split_ifs with h <;> intro c hc
  · rcases List.mem_cons.mp hc with hc | hc
    · exact Or.inl hc
    · exact Or.inr (natChars_mem _ c hc)
  · exact Or.inr (natChars_mem _ c hc)

theorem numToString_no_special (q : ℚ) : strHasSpecial (numToString q) = false := by
  have hdig : ∀ d, d < 10 →
      ((digitChar d = ',' : Bool) || (digitChar d = '"' : Bool) ||
        (digitChar d = '\n' : Bool)) = false := by decide
  rw [strHasSpecial, List.any_eq_false]
  intro c hc
  rw [numToString] at hc
  split_ifs at hc with hden
  · rcases intChars_mem _ c hc with rfl | ⟨d, hd, rfl⟩
    · decide
    · simp [hdig d hd]
  · show ¬_
    rcases List.mem_append.mp hc with hc2 | hc2
    · rcases intChars_mem _ c hc2 with rfl | ⟨d, hd, rfl⟩
      · decide
      · simp [hdig d hd]
    · rcases List.mem_cons.mp hc2 with rfl | hc3
      · decide
      · rcases natChars_mem _ c hc3 with ⟨d, hd, rfl⟩
        simp [hdig d hd]

/-- The implementation's cell (quote only string values that contain a
special character) agrees with the spec's cell (quote any value whose
string form contains one), because number string forms never do. -/
theorem csvCell_eq_spec (v : Value) : csvCell v = csvSpecCell v := by
  cases v with
  | vNull => rfl
  | vStr s => rfl
  | vNum q =>
      show numToString q =
        (if strHasSpecial (numToString q) then quoteWrap (numToString q)
         else numToString q)
      rw [numToString_no_special]
      simp

/-- C6.  The CSV export matches the spec's description exactly (header
line of comma-joined names, one line per row, cells quoted with doubled
quotes exactly when the string form holds a comma, quote or newline, null
and undefined as empty fields); re-parsing a serialized string cell
recovers the original string, in particular on the spec's example. -/
theorem c6_csv_format_roundtrip :
    (∀ (data : List Row) (columns : List Column),
        exportCSV data columns = csvSpecExport data columns) ∧
    (∀ s : String, csvUnescape (csvCell (.vStr s)) = s) ∧
    csvCell .vNull = "" ∧
    csvCell (.vStr "Acme, \"Inc.\"") = "\"Acme, \"\"Inc.\"\"\"" ∧
    csvUnescape "\"Acme, \"\"Inc.\"\"\"" = "Acme, \"Inc.\"" := by
  refine ⟨?_, csv_roundtrip, rfl, by decide, by decide⟩
  intro data columns
  rw [exportCSV, csvSpecExport, funext csvCell_eq_spec]

/-! ## C8: JSON export -/

theorem mem_joinSep_contains (sep x : String) :
    ∀ (l : List String), x ∈ l → x.data <:+: (joinSep sep l).data
  | [], h => absurd h (List.not_mem_nil x)
  | [y], h => by
      rcases List.mem_singleton.mp h with rfl
      exact List.infix_refl _
  | y :: z :: t, h => by
      show x.data <:+: (y ++ sep ++ joinSep sep (z :: t)).data
      rcases List.mem_cons.mp h with rfl | h2
      · rw [strData_append, strData_append]
        exact ⟨[], sep.data ++ (joinSep sep (z :: t)).data, by simp⟩
      · refine (mem_joinSep_contains sep x (z :: t) h2).trans ?_
        rw [strData_append, strData_append]
        exact ⟨y.data ++ sep.data, [], by simp⟩

theorem key_infix_jsonObject (ind : Nat) (r : Row) (kv : String × Value)
    (h : kv ∈ r) :
    (jsonQuote kv.1).data <:+: (jsonObject ind r).data := by
  cases r with
  | nil => exact absurd h (List.not_mem_nil _)
  | cons kv0 rest =>
      show (jsonQuote kv.1).data <:+:
        ("\x7b\n" ++
          joinSep ",\n"
            ((kv0 :: rest).map fun kv2 =>
              jsonIndent (ind + 2) ++ jsonQuote kv2.1 ++ ": " ++ jsonValue kv2.2) ++
          "\n" ++ jsonIndent ind ++ "\x7d").data
      have hentry :
          (jsonIndent (ind + 2) ++ jsonQuote kv.1 ++ ": " ++ jsonValue kv.2) ∈
            (kv0 :: rest).map
              (fun kv2 => jsonIndent (ind + 2) ++ jsonQuote kv2.1 ++ ": " ++ jsonValue kv2.2) :=
        List.mem_map_of_mem _ h
      have h1 := mem_joinSep_contains ",\n" _ _ hentry
      have h2 : (jsonQuote kv.1).data <:+:
          (jsonIndent (ind + 2) ++ jsonQuote kv.1 ++ ": " ++ jsonValue kv.2).data := by
        rw [strData_append, strData_append, strData_append]
        exact ⟨(jsonIndent (ind + 2)).data, (": ").data ++ (jsonValue kv.2).data, by simp⟩
      refine (h2.trans h1).trans ?_
      rw [strData_append, strData_append, strData_append, strData_append]
      exact ⟨("\x7b\n").data,
        ("\n").data ++ (jsonIndent ind).data ++ ("\x7d").data, by simp⟩

/-- C8 counterexample: a row key "b" outside the declared column list
(only "a") still appears, quoted, in the exported JSON. -/
theorem c8_json_cex :
    ("\"b\"" : String).data <:+:
      (exportJSON [[("a", Value.vStr "x"), ("b", Value.vStr "y")]]
        [⟨"a", "measure"⟩]).data := by decide

/-- C8 amended: the JSON export pretty-prints the row objects with ALL
their keys and ignores the declared column list entirely: the output is
identical for any two column lists, and every key of every row appears
(quoted) in the output, declared or not. -/
theorem c8_json_all_keys (data : List Row) (columns columns2 : List Column) :
    exportJSON data columns = exportJSON data columns2 ∧
    (∀ r ∈ data, ∀ kv ∈ r,
      (jsonQuote kv.1).data <:+: (exportJSON data columns).data) := by
  refine ⟨rfl, ?_⟩
  intro r hr kv hkv
  cases data with
  | nil => exact absurd hr (List.not_mem_nil _)
  | cons r0 rest =>
      show _ <:+:
        ("[\n" ++ joinSep ",\n" ((r0 :: rest).map fun r2 => jsonIndent 2 ++ jsonObject 2 r2) ++
          "\n]").data
      have hentry : (jsonIndent 2 ++ jsonObject 2 r) ∈
          (r0 :: rest).map (fun r2 => jsonIndent 2 ++ jsonObject 2 r2) :=
        List.mem_map_of_mem _ hr
      have h1 := mem_joinSep_contains ",\n" _ _ hentry
      have h2 : (jsonObject 2 r).data <:+: (jsonIndent 2 ++ jsonObject 2 r).data := by
        rw [strData_append]
        exact ⟨(jsonIndent 2).data, [], by simp⟩
      have h3 := key_infix_jsonObject 2 r kv hkv
      refine ((h3.trans h2).trans h1).trans ?_
      rw [strData_append, strData_append]
      exact ⟨("[\n").data, ("\n]").data, by simp⟩

/-- C8 witness: a concrete row through the amended theorem. -/
theorem c8_json_all_keys_witness :
    ("\"a\"" : String).data <:+:
      (exportJSON [[("a", Value.vStr "x")]] [⟨"a", "measure"⟩]).data := by
  have h := (c8_json_all_keys [[("a", Value.vStr "x")]] [⟨"a", "measure"⟩] []).2
    [("a", Value.vStr "x")] (by simp) ("a", Value.vStr "x") (by simp)
  exact h

/-! ## C9: ledger hydration -/

/-- C9 counterexample: the stored value "5" is corrupt as a ledger (it is
not an array), yet hydration does not reset to the empty ledger: it
installs the number 5 as the history state. -/
theorem c9_hydration_cex :
    hydrateHistory (some "5") = Json.jNum 5 ∧
    (∀ l : List Json, Json.jNum 5 ≠ Json.jArr l) := by
  constructor
  · rfl
  · intro l h
    exact Json.noConfusion h

/-- C9 amended: a missing, empty, or syntactically invalid stored value
hydrates to the empty ledger (never an error); any syntactically valid
JSON value is installed as-is without schema validation — so a well-formed
stored array yields exactly that array, but a valid non-array value
corrupts the ledger instead of resetting it.  The last conjunct runs a
full stored history record through the parser. -/
theorem c9_hydration_recovery :
    hydrateHistory none = Json.jArr [] ∧
    hydrateHistory (some "") = Json.jArr [] ∧
    (∀ s : String, s ≠ "" → parseJsonStr s = none →
      hydrateHistory (some s) = Json.jArr []) ∧
    (∀ (s : String) (v : Json), s ≠ "" → parseJsonStr s = some v →
      hydrateHistory (some s) = v) ∧
    hydrateHistory (some "not json") = Json.jArr [] ∧
    hydrateHistory
        (some "[ \x7b\"id\":\"a1\",\"question\":\"Show sales\",\"timestamp\":5,\"rowCount\":2,\"executionTime\":10,\"confidence\":0.9\x7d ]") =
      Json.jArr [Json.jObj [("id", Json.jStr "a1"),
        ("question", Json.jStr "Show sales"), ("timestamp", Json.jNum 5),
        ("rowCount", Json.jNum 2), ("executionTime", Json.jNum 10),
        ("confidence", Json.jNum (9 / 10))]] := by
  refine ⟨rfl, rfl, ?_, ?_, rfl, ?_⟩
  · intro s hs hp
    show (if s = "" then Json.jArr []
      else match parseJsonStr s with
        | some v => v
        | none => Json.jArr []) = Json.jArr []
    rw [if_neg hs, hp]
  · intro s v hs hp
    show (if s = "" then Json.jArr []
      else match parseJsonStr s with
        | some v2 => v2
        | none => Json.jArr []) = v
    rw [if_neg hs, hp]
  · have h09 : (0 : ℚ) + 9 / 10 = 9 / 10 := by norm_num
    rw [← h09]
    rfl

/-- C9 witness: the malformed and well-formed branches at concrete stored
values, via the theorem. -/
theorem c9_hydration_recovery_witness :
    hydrateHistory (some "x") = Json.jArr [] ∧
    hydrateHistory (some "[1]") = Json.jArr [Json.jNum 1] := by
  refine ⟨c9_hydration_recovery.2.2.1 "x" (by decide) rfl,
    c9_hydration_recovery.2.2.2.1 "[1]" (Json.jArr [Json.jNum 1]) (by decide) rfl⟩

end AutoBI
